import Mathlib

/-!
Verification development for the car-poster generator
(`src/car_poster_generator.py`).  The Python source is shallowly embedded:
pure string manipulation becomes functions on `String` (viewed through its
underlying `List Char`, so that Python's `len`, slicing and `in` have exact
counterparts), the specification dictionary becomes a structure of
`Option String` fields, and the PIL drawing calls become a list of shape
operations with an explicit pixel-coverage semantics.
-/

namespace CarPoster

/-! ### Python string primitives

`isPySpace` is Python's `str.strip` whitespace class (restricted to the
characters that can occur here).  `pyStrip`, `replaceCh`, `lowerStr`,
`upperStr`, `takeStr` and `strLen` model `str.strip`, single-character
`str.replace`, `str.lower`, `str.upper`, slicing `s[:n]` and `len(s)`.
`containsSub hay needle` models Python's `needle in hay`. -/

def isPySpace (c : Char) : Bool :=
  c = ' ' || c = '\t' || c = '\n' || c = '\r' || c = '\x0b' || c = '\x0c'

def pyStripL (l : List Char) : List Char :=
  ((l.dropWhile isPySpace).reverse.dropWhile isPySpace).reverse

def pyStrip (s : String) : String := ⟨pyStripL s.data⟩

def replaceCh (a b : Char) (l : List Char) : List Char :=
  l.map (fun c => if c = a then b else c)

def lowerStr (s : String) : String := ⟨s.data.map Char.toLower⟩

def upperStr (s : String) : String := ⟨s.data.map Char.toUpper⟩

def strLen (s : String) : Nat := s.data.length

def takeStr (s : String) (n : Nat) : String := ⟨s.data.take n⟩

/-- `leadsWith needle hay`: `needle` is an initial run of `hay`. -/
def leadsWith : List Char → List Char → Bool
  | [], _ => true
  | _ :: _, [] => false
  | a :: as, b :: bs => a == b && leadsWith as bs

/-- `hasSubList needle hay`: `needle` occurs contiguously inside `hay`. -/
def hasSubList (needle : List Char) : List Char → Bool
  | [] => needle.isEmpty
  | b :: bs => leadsWith needle (b :: bs) || hasSubList needle bs

def containsSub (hay needle : String) : Bool := hasSubList needle.data hay.data

def startsWithStr (s pre : String) : Bool := leadsWith pre.data s.data

/-! ### Specification data model

The specification dictionary built by `CarSpecScraper.get_model_specs`
(src/car_poster_generator.py:263) only ever holds the eight fixed keys, so
it is embedded as a structure of `Option String` fields; an absent key is
`none`.  `getKey`/`setKey` are dictionary read and write. -/

inductive SpecKey
  | year
  | engine
  | power
  | torque
  | weight
  | acceleration_0_100
  | top_speed
  | image_url
deriving DecidableEq

structure Specs where
  year : Option String := none
  engine : Option String := none
  power : Option String := none
  torque : Option String := none
  weight : Option String := none
  acceleration_0_100 : Option String := none
  top_speed : Option String := none
  image_url : Option String := none
deriving DecidableEq

def getKey (s : Specs) : SpecKey → Option String
  | .year => s.year
  | .engine => s.engine
  | .power => s.power
  | .torque => s.torque
  | .weight => s.weight
  | .acceleration_0_100 => s.acceleration_0_100
  | .top_speed => s.top_speed
  | .image_url => s.image_url

def setKey (s : Specs) : SpecKey → String → Specs
  | .year, v => { s with year := some v }
  | .engine, v => { s with engine := some v }
  | .power, v => { s with power := some v }
  | .torque, v => { s with torque := some v }
  | .weight, v => { s with weight := some v }
  | .acceleration_0_100, v => { s with acceleration_0_100 := some v }
  | .top_speed, v => { s with top_speed := some v }
  | .image_url, v => { s with image_url := some v }

/-! ### Tier 1: structured table scan
(src/car_poster_generator.py:267-304) -/

/-- The reject substrings of `_ok_spec_val`
(src/car_poster_generator.py:281). -/
def rejectList : List String :=
  ["coupe", "roadster", "submodel", "belonging", "vers", "gen."]

/-- `(v or "").strip().replace("\n", " ")[:max_len]`
(src/car_poster_generator.py:278). -/
def okSanitized (value : String) (maxLen : Nat) : String :=
  ⟨(replaceCh '\n' ' ' (pyStripL value.data)).take maxLen⟩

/-- Embedding of the local helper `_ok_spec_val`
(src/car_poster_generator.py:277-283): sanitize to `maxLen` characters,
reject empty / overlong values and values containing a reject substring
case-insensitively. -/
def okSpecVal (value : String) (maxLen : Nat) : Option String :=
  if okSanitized value maxLen = "" ∨ strLen (okSanitized value maxLen) > maxLen then
    none
  else if rejectList.any
      (fun b => containsSub (lowerStr (okSanitized value maxLen)) b) then
    none
  else some (okSanitized value maxLen)

/-- `re.match(r"^[\d\s\-]+$", ...)` of the `year` branch
(src/car_poster_generator.py:303): non-empty and all characters are
digits, whitespace or a dash. -/
def yearLike (s : String) : Bool :=
  !s.data.isEmpty && s.data.all (fun c => c.isDigit || isPySpace c || c = '-')

/-- What a single table row writes into the dictionary, if anything.
A row is the list of its cells' `get_text(strip=True)` strings.  Mirrors
the `if len(cells) >= 2` guard and the label-keyword `elif` chain of
src/car_poster_generator.py:271-304: cell 0 (lower-cased) is the label,
cell 1 the candidate value, and a branch whose `_ok_spec_val` check fails
writes nothing. -/
def rowAssign (cells : List String) : Option (SpecKey × String) :=
  match cells with
  | c0 :: c1 :: _ =>
    let label := lowerStr c0
    let value := c1
    if containsSub label "engine" || containsSub label "displacement" then
      (okSpecVal value 35).map (fun v => (SpecKey.engine, v))
    else if containsSub label "power" || containsSub label "horsepower" ||
        containsSub label "hp" then
      (okSpecVal value 35).map (fun v => (SpecKey.power, v))
    else if containsSub label "torque" then
      (okSpecVal value 35).map (fun v => (SpecKey.torque, v))
    else if containsSub label "weight" || containsSub label "mass" then
      (okSpecVal value 35).map (fun v => (SpecKey.weight, v))
    else if containsSub label "acceleration" || containsSub label "0-100" ||
        containsSub label "0-60" then
      (okSpecVal value 35).map (fun v => (SpecKey.acceleration_0_100, v))
    else if containsSub label "top speed" || containsSub label "maximum speed" then
      (okSpecVal value 35).map (fun v => (SpecKey.top_speed, v))
    else if containsSub label "year" || containsSub label "production" then
      if (okSpecVal value 20).isSome && yearLike (takeStr (pyStrip value) 20) then
        some (SpecKey.year, takeStr (pyStrip value) 20)
      else none
    else none
  | _ => none

/-- One iteration of the Tier-1 row loop: a row that assigns `(k, v)`
executes `specs[k] = v` (an unconditional dictionary write — there is no
presence check in the source), any other row leaves `specs` unchanged. -/
def tier1Step (s : Specs) (cells : List String) : Specs :=
  match rowAssign cells with
  | some kv => setKey s kv.1 kv.2
  | none => s

/-- The whole Tier-1 structured scan over the flattened list of table rows
(tables in document order, rows in table order),
src/car_poster_generator.py:267-304. -/
def tier1 (rows : List (List String)) : Specs := rows.foldl tier1Step {}

/-! ### Tier 2: regex fallback (src/car_poster_generator.py:306-351)

The seven `re.search` applications (together with the group formatting
such as `f"{m.group(1)} HP"`) are abstracted as a record of matcher
functions from the scanned text to the stored string; the guards, the
order of the fields and the fact that each matcher writes exactly its own
key are taken from the source.  The `year` matcher receives
`model_url + ' ' + text_content`, exactly as on line 346. -/

structure Tier2Matchers where
  engineM : String → Option String
  powerM : String → Option String
  torqueM : String → Option String
  weightM : String → Option String
  accelM : String → Option String
  speedM : String → Option String
  yearM : String → Option String

/-- Python truthiness of `specs.get(k)`: missing key or empty string. -/
def pyFalsy : Option String → Bool
  | none => true
  | some v => v == ""

/-- One Tier-2 block `if not specs.get(k): m = re.search(...); if m:
specs[k] = ...` (e.g. src/car_poster_generator.py:307-310). -/
def fillIfEmpty (s : Specs) (k : SpecKey) (res : Option String) : Specs :=
  if pyFalsy (getKey s k) then
    match res with
    | some v => setKey s k v
    | none => s
  else s

/-- The Tier-2 fallback pass, in source order
(src/car_poster_generator.py:306-351). -/
def tier2 (m : Tier2Matchers) (text url : String) (s : Specs) : Specs :=
  let s := fillIfEmpty s .engine (m.engineM text)
  let s := fillIfEmpty s .power (m.powerM text)
  let s := fillIfEmpty s .torque (m.torqueM text)
  let s := fillIfEmpty s .weight (m.weightM text)
  let s := fillIfEmpty s .acceleration_0_100 (m.accelM text)
  let s := fillIfEmpty s .top_speed (m.speedM text)
  fillIfEmpty s .year (m.yearM (url ++ " " ++ text))

/-! ### Tier 3: image reference (src/car_poster_generator.py:353-367)

`urljoin` is the standard library's URL resolution, abstracted as a
function parameter.  An image element is its `src` attribute string. -/

/-- Filter of the first image loop (src/car_poster_generator.py:354-361):
skip blank sources and logo/icon/pixel paths; accept when the joined URL
is on the site or absolute. -/
def imgKeep1 (urlJoin : String → String → String) (modelUrl src0 : String) :
    Option String :=
  let src := pyStrip src0
  if src = "" || containsSub (lowerStr src) "logo" ||
      containsSub (lowerStr src) "icon" || containsSub (lowerStr src) "pixel" then
    none
  else
    let full := urlJoin modelUrl src
    if containsSub full "automobile-catalog.com" || startsWithStr full "http" then
      some full
    else none

/-- Filter of the second (fallback) image loop
(src/car_poster_generator.py:362-367): any source longer than 10
characters. -/
def imgKeep2 (urlJoin : String → String → String) (modelUrl src0 : String) :
    Option String :=
  let src := pyStrip src0
  if src ≠ "" ∧ strLen src > 10 then some (urlJoin modelUrl src) else none

/-! ### The whole extraction with the single `try`/`except`

`get_model_specs` wraps its entire body — every table row, every regex
application and every image element — in one `try` whose `except` returns
`None` (src/car_poster_generator.py:250 and 371-375).  To express what an
exception during the processing of a single item does, rows and image
elements are `Fallible`: a `.raises` item stands for an element whose
processing raises.  There is no per-item handler in the source, so a
`.raises` item reached by one of the loops makes the whole call return
`none`. -/

inductive Fallible (α : Type)
  | ok (val : α)
  | raises
deriving DecidableEq

/-- The Tier-1 loop over fallible rows: a raising row propagates to the
outer `except` (whole call returns `None`). -/
def tier1Run : Specs → List (Fallible (List String)) → Option Specs
  | s, [] => some s
  | _, .raises :: _ => none
  | s, .ok r :: rest => tier1Run (tier1Step s r) rest

/-- A `for`/`break` scan over fallible image elements with per-element
filter `f`: `some (some u)` means the loop broke with URL `u`,
`some none` means it ran out of elements, `none` means an element raised
before any match. -/
def findFirst (f : String → Option String) :
    List (Fallible String) → Option (Option String)
  | [] => some none
  | .raises :: _ => none
  | .ok src :: rest =>
    match f src with
    | some u => some (some u)
    | none => findFirst f rest

/-- Embedding of the extraction body of `CarSpecScraper.get_model_specs`
(src/car_poster_generator.py:261-375), from the point where the HTML is
parsed: Tier-1 table scan, Tier-2 regex fallback, Tier-3 image scan with
its own fallback loop, then `return specs if specs else None`.  `rows` is
the flattened list of table rows, `text` the flattened visible text,
`imgs` the image sources in document order. -/
def getModelSpecs (m : Tier2Matchers) (urlJoin : String → String → String)
    (rows : List (Fallible (List String))) (text modelUrl : String)
    (imgs : List (Fallible String)) : Option Specs :=
  match tier1Run {} rows with
  | none => none
  | some s1 =>
    let s2 := tier2 m text modelUrl s1
    match findFirst (imgKeep1 urlJoin modelUrl) imgs with
    | none => none
    | some r1 =>
      let s3 := match r1 with
        | some u => setKey s2 .image_url u
        | none => s2
      let s4opt : Option Specs :=
        if s3.image_url = none then
          match findFirst (imgKeep2 urlJoin modelUrl) imgs with
          | none => none
          | some (some u) => some (setKey s3 .image_url u)
          | some none => some s3
        else some s3
      match s4opt with
      | none => none
      | some s4 => if s4 = ({} : Specs) then none else some s4

/-- A concrete all-`none` matcher valuation, used to instantiate the
abstract Tier-2 matchers at concrete inputs. -/
def noMatchers : Tier2Matchers :=
  ⟨fun _ => none, fun _ => none, fun _ => none, fun _ => none,
   fun _ => none, fun _ => none, fun _ => none⟩

/-- A concrete `urljoin` valuation (returns the source path unchanged),
used to instantiate the abstract URL resolution at concrete inputs. -/
def idJoin : String → String → String := fun _ src => src

/-! ### Value sanitizer of the poster generator
(`PosterGenerator._sanitize_spec_value`, src/car_poster_generator.py:453-460)

The Python parameter is a string that may also be `None` (the `if not v`
guard handles both), hence the `Option String` argument.  `v[: max_len-1]`
is Python slicing: for `max_len = 0` the index is `-1` and the slice drops
the last character. -/

def ellipsisChar : Char := '…'

def sanitizeSpecValue (v0 : Option String) (maxLen : Nat) : String :=
  match v0 with
  | none => ""
  | some s =>
    if s = "" then ""
    else
      let v := replaceCh '\r' ' ' (replaceCh '\n' ' ' (pyStripL s.data))
      if v.length > maxLen then
        ⟨(if maxLen = 0 then v.dropLast else v.take (maxLen - 1)) ++ [ellipsisChar]⟩
      else ⟨v⟩

/-- The whitespace-normalized form of the input: the value of the local
`v` after `strip` and the two `replace` calls
(src/car_poster_generator.py:457). -/
def wsNormalized (v0 : Option String) : List Char :=
  match v0 with
  | none => []
  | some s => if s = "" then [] else replaceCh '\r' ' ' (replaceCh '\n' ' ' (pyStripL s.data))

/-! ### Static reference tables
(src/car_poster_generator.py:139-181) -/

/-- `BRAND_COUNTRY` (src/car_poster_generator.py:140-158). -/
def brandCountry : List (String × String) :=
  [("audi", "DE"), ("bmw", "DE"), ("mercedes", "DE"), ("mercedes-benz", "DE"),
   ("porsche", "DE"), ("volkswagen", "DE"), ("vw", "DE"), ("opel", "DE"),
   ("maybach", "DE"), ("smart", "DE"),
   ("ferrari", "IT"), ("lamborghini", "IT"), ("maserati", "IT"), ("fiat", "IT"),
   ("alfa romeo", "IT"), ("lancia", "IT"), ("pagani", "IT"),
   ("renault", "FR"), ("peugeot", "FR"), ("citroën", "FR"), ("citroen", "FR"),
   ("bugatti", "FR"),
   ("bentley", "GB"), ("rolls-royce", "GB"), ("aston martin", "GB"),
   ("jaguar", "GB"), ("land rover", "GB"), ("mclaren", "GB"), ("lotus", "GB"),
   ("mini", "GB"), ("mg", "GB"),
   ("ford", "US"), ("chevrolet", "US"), ("tesla", "US"), ("dodge", "US"),
   ("jeep", "US"), ("cadillac", "US"), ("gmc", "US"), ("buick", "US"),
   ("chrysler", "US"),
   ("toyota", "JP"), ("honda", "JP"), ("nissan", "JP"), ("mazda", "JP"),
   ("subaru", "JP"), ("lexus", "JP"), ("infiniti", "JP"), ("acura", "JP"),
   ("suzuki", "JP"), ("mitsubishi", "JP"),
   ("hyundai", "KR"), ("kia", "KR"), ("genesis", "KR"), ("ssangyong", "KR"),
   ("volvo", "SE"), ("koenigsegg", "SE"), ("saab", "SE"),
   ("skoda", "CZ"), ("tatra", "CZ"),
   ("dacia", "RO"),
   ("seat", "ES"), ("cupra", "ES"),
   ("tata", "IN"), ("mahindra", "IN")]

/-- A flag definition: the pattern kind together with its color data
(the `('h', [...])` / `('circle', (bg, fg))` tuples of the source). -/
inductive FlagSpec
  | horiz (colors : List String)
  | vert (colors : List String)
  | circle (bg fg : String)
  | cross (bg fg : String)
deriving DecidableEq

/-- `FLAG_DEFINITIONS` (src/car_poster_generator.py:162-181).  The US
entry is `(['#B22234', '#FFFFFF'] * 7)[:13]` as in the source. -/
def flagDefinitions : List (String × FlagSpec) :=
  [("DE", .horiz ["#000000", "#DD0000", "#FFCE00"]),
   ("AT", .horiz ["#ED2939", "#FFFFFF", "#ED2939"]),
   ("IT", .vert ["#009246", "#FFFFFF", "#CE2B37"]),
   ("FR", .vert ["#002395", "#FFFFFF", "#ED2939"]),
   ("JP", .circle "#FFFFFF" "#BC002D"),
   ("US", .horiz ((List.flatten (List.replicate 7 ["#B22234", "#FFFFFF"])).take 13)),
   ("GB", .horiz ["#012169", "#FFFFFF", "#C8102E"]),
   ("KR", .horiz ["#FFFFFF", "#003478", "#C60C30"]),
   ("SE", .cross "#006AA7" "#FECC00"),
   ("CZ", .horiz ["#11457E", "#FFFFFF", "#D7141A"]),
   ("RO", .vert ["#002B7F", "#FCD116", "#CE1126"]),
   ("ES", .horiz ["#C60B1E", "#FFC400", "#C60B1E"]),
   ("IN", .horiz ["#FF9933", "#FFFFFF", "#138808"]),
   ("CH", .horiz ["#FF0000", "#FFFFFF"]),
   ("NL", .horiz ["#AE1C28", "#FFFFFF", "#21468B"]),
   ("BE", .vert ["#000000", "#FDDA24", "#ED2939"]),
   ("PL", .horiz ["#FFFFFF", "#DC143C"]),
   ("RU", .horiz ["#FFFFFF", "#0039A6", "#D52B1E"])]

/-- Python `dict.get` on an association list built from a dict literal
(keys are distinct, so first match is the entry). -/
def dictGet {α : Type} (k : String) : List (String × α) → Option α
  | [] => none
  | p :: rest => if p.1 = k then some p.2 else dictGet k rest

/-! ### Flag renderer (`PosterGenerator._draw_country_flag`,
src/car_poster_generator.py:412-451)

PIL's `ImageDraw.rectangle([x1, y1, x2, y2])` colors the pixels `(px, py)`
with `x1 ≤ px ≤ x2` and `y1 ≤ py ≤ y2` (both corners inclusive);
`ellipse` fills the disc inscribed in its (inclusive) bounding box.  A
drawing is embedded as the list of shape operations the method issues, in
order, and `Shape.covers` is the pixel-coverage semantics.  Python's
floor division `//` is `Int.fdiv`; `int(...)` applied to the non-negative
stripe boundaries and to `min(w, h) * 0.35 = 7 * min(w, h) / 20` is the
rational floor, hence also `Int.fdiv`. -/

inductive Shape
  | rect (x1 y1 x2 y2 : Int) (fill : String)
  | ellipse (x1 y1 x2 y2 : Int) (fill : String)
deriving DecidableEq

def Shape.covers : Shape → Int × Int → Prop
  | .rect x1 y1 x2 y2 _, p => x1 ≤ p.1 ∧ p.1 ≤ x2 ∧ y1 ≤ p.2 ∧ p.2 ≤ y2
  | .ellipse x1 y1 x2 y2 _, p =>
    (x1 ≤ p.1 ∧ p.1 ≤ x2 ∧ y1 ≤ p.2 ∧ p.2 ≤ y2) ∧
    (2 * p.1 - (x1 + x2)) ^ 2 * (y2 - y1) ^ 2 +
      (2 * p.2 - (y1 + y2)) ^ 2 * (x2 - x1) ^ 2 ≤ (x2 - x1) ^ 2 * (y2 - y1) ^ 2

instance (s : Shape) (p : Int × Int) : Decidable (s.covers p) :=
  match s with
  | .rect _ _ _ _ _ => inferInstanceAs (Decidable (_ ∧ _ ∧ _ ∧ _))
  | .ellipse _ _ _ _ _ => inferInstanceAs (Decidable (_ ∧ _))

/-- A pixel is painted by a drawing when some issued shape covers it. -/
def pointPainted (ops : List Shape) (p : Int × Int) : Prop :=
  ∃ s ∈ ops, s.covers p

instance (ops : List Shape) (p : Int × Int) : Decidable (pointPainted ops p) :=
  List.decidableBEx _ ops

/-- The inclusive target rectangle `[x, y, x + w, y + h]` that
`_draw_country_flag` receives (the same corner convention the method
itself passes to every full-rectangle fill). -/
def inTarget (x y w h : Int) (p : Int × Int) : Prop :=
  x ≤ p.1 ∧ p.1 ≤ x + w ∧ y ≤ p.2 ∧ p.2 ≤ y + h

instance (x y w h : Int) (p : Int × Int) : Decidable (inTarget x y w h p) :=
  inferInstanceAs (Decidable (_ ∧ _ ∧ _ ∧ _))

/-- Stripe `i` of a horizontal flag of `n` colors:
`draw.rectangle([x, int(y + i*h/n), x + w, int(y + (i+1)*h/n)])`
(src/car_poster_generator.py:421-425). -/
def hShape (n : Nat) (x y w h : Int) (i : Nat) (c : String) : Shape :=
  .rect x (y + Int.fdiv ((i : Int) * h) n) (x + w)
    (y + Int.fdiv (((i + 1 : Nat) : Int) * h) n) c

/-- Stripe `i` of a vertical flag of `n` colors
(src/car_poster_generator.py:427-433). -/
def vShape (n : Nat) (x y w h : Int) (i : Nat) (c : String) : Shape :=
  .rect (x + Int.fdiv ((i : Int) * w) n) y
    (x + Int.fdiv (((i + 1 : Nat) : Int) * w) n) (y + h) c

/-- The `for i, color in enumerate(colors)` loop, emitting one stripe
shape per color with its running index. -/
def stripeOps (mk : Nat → String → Shape) : Nat → List String → List Shape
  | _, [] => []
  | i, c :: rest => mk i c :: stripeOps mk (i + 1) rest

/-- The shapes issued by `_draw_country_flag` for one flag definition
(the body after the lookup, src/car_poster_generator.py:417-451). -/
def drawFlagOps (fs : FlagSpec) (x y w h : Int) : List Shape :=
  match fs with
  | .horiz colors => stripeOps (hShape colors.length x y w h) 0 colors
  | .vert colors => stripeOps (vShape colors.length x y w h) 0 colors
  | .circle bg fg =>
    let cx := x + Int.fdiv w 2
    let cy := y + Int.fdiv h 2
    let r := Int.fdiv (7 * min w h) 20
    [.rect x y (x + w) (y + h) bg,
     .ellipse (cx - r) (cy - r) (cx + r) (cy + r) fg]
  | .cross bg fg =>
    let barW := max 2 (Int.fdiv w 5)
    let barH := max 2 (Int.fdiv h 5)
    let vX := x + Int.fdiv (w - barW) 2
    let hY := y + Int.fdiv (h - barH) 2
    [.rect x y (x + w) (y + h) bg,
     .rect vX y (vX + barW) (y + h) fg,
     .rect x hY (x + w) (hY + barH) fg]

/-- Non-degenerate color data: the stripe kinds carry at least one color
(true of every `FLAG_DEFINITIONS` entry; an empty list would be a
`ZeroDivisionError` in the source). -/
def FlagSpec.wfColors : FlagSpec → Prop
  | .horiz colors => colors ≠ []
  | .vert colors => colors ≠ []
  | .circle _ _ => True
  | .cross _ _ => True

instance (fs : FlagSpec) : Decidable fs.wfColors := by
  cases fs <;> simp only [FlagSpec.wfColors] <;> infer_instance

/-- The whole `_draw_country_flag` entry point
(src/car_poster_generator.py:412-416): normalize the country code with
`(country_code or '').upper()[:2]`, return without drawing when it is
empty or not a `FLAG_DEFINITIONS` key. -/
def drawCountryFlag (code : String) (x y w h : Int) : List Shape :=
  let cc := takeStr (upperStr code) 2
  if cc = "" then []
  else
    match dictGet cc flagDefinitions with
    | none => []
    | some fs => drawFlagOps fs x y w h

/-! ### Poster layout (`PosterGenerator.generate_poster`,
src/car_poster_generator.py:462-572) -/

def lineHeight : Int := 42

/-- The left spec column (src/car_poster_generator.py:531-534): one
label/value row exactly when `year` is present. -/
def yearItems (s : Specs) : List (String × String) :=
  match s.year with
  | some v => [("YEAR", sanitizeSpecValue (some v) 18)]
  | none => []

def midFields : List (SpecKey × String) :=
  [(.engine, "Engine"), (.power, "Power"), (.torque, "Torque"), (.weight, "Weight")]

/-- The middle column's `mid_items` list
(src/car_poster_generator.py:537-540): engine, power, torque, weight in
that order, skipping absent keys, values sanitized to 18 characters. -/
def midItems (s : Specs) : List (String × String) :=
  midFields.foldl
    (fun acc kl =>
      match getKey s kl.1 with
      | some v => acc ++ [(kl.2, sanitizeSpecValue (some v) 18)]
      | none => acc)
    []

/-- The right column's `right_items` list
(src/car_poster_generator.py:552-556). -/
def rightItems (s : Specs) : List (String × String) :=
  (match s.acceleration_0_100 with
   | some v => [("0-100 km/h", sanitizeSpecValue (some v) 18)]
   | none => []) ++
  (match s.top_speed with
   | some v => [("Top speed", sanitizeSpecValue (some v) 18)]
   | none => [])

/-- `for i, (label, value) in enumerate(items): y = spec_y_start +
i * line_height` — each item with the row y-coordinate it is drawn at
(src/car_poster_generator.py:544-545 and 559-560). -/
def rowsWithY (items : List (String × String)) (start : Int) :
    List (String × String × Int) :=
  items.enum.map (fun iv => (iv.2.1, iv.2.2, start + (iv.1 : Int) * lineHeight))

/-- The flag placement and draw of `generate_poster`
(src/car_poster_generator.py:566-572): resolve the brand (stripped,
lower-cased) through `BRAND_COUNTRY`; if known, draw the 36×24 flag at
`x = r_val_end - 36`, `y = spec_y_start + len(right_items)*line_height + 12`;
otherwise draw nothing. -/
def flagStepOps (brand : String) (s : Specs) (specYStart rValEnd : Int) :
    List Shape :=
  match dictGet (lowerStr (pyStrip brand)) brandCountry with
  | some cc =>
    drawCountryFlag cc (rValEnd - 36)
      (specYStart + ((rightItems s).length : Int) * lineHeight + 12) 36 24
  | none => []

/-! ### Image panel scaling (src/car_poster_generator.py:502-518)

Python computes `scale = min(box_w / iw, box_h / ih, 1.0)` in floating
point; the embedding uses the exact rational value.  `int(iw * scale)` on
the non-negative result is the rational floor (`Rat.floor`). -/

def imageScale (boxW boxH iw ih : Int) : ℚ :=
  min (min ((boxW : ℚ) / (iw : ℚ)) ((boxH : ℚ) / (ih : ℚ))) 1

def scaledW (boxW boxH iw ih : Int) : Int :=
  Rat.floor ((iw : ℚ) * imageScale boxW boxH iw ih)

def scaledH (boxW boxH iw ih : Int) : Int :=
  Rat.floor ((ih : ℚ) * imageScale boxW boxH iw ih)

/-- `paste_x = margin + 20 + (box_w - nw) // 2`
(src/car_poster_generator.py:514); the image panel starts at
`margin + 20`. -/
def pasteX (margin boxW nw : Int) : Int := margin + 20 + Int.fdiv (boxW - nw) 2

/-- `paste_y = image_area_top + (box_h - nh) // 2`
(src/car_poster_generator.py:515). -/
def pasteY (areaTop boxH nh : Int) : Int := areaTop + Int.fdiv (boxH - nh) 2

/-- Boolean check that a country code resolves to a usable flag
definition: the normalized code is non-empty, is a `FLAG_DEFINITIONS`
key, and its color data is non-degenerate. -/
def checkCountry (c : String) : Bool :=
  !(takeStr (upperStr c) 2 == "") &&
    (match dictGet (takeStr (upperStr c) 2) flagDefinitions with
     | some fs => decide fs.wfColors
     | none => false)

/-! ## Helper lemmas -/

theorem getKey_setKey_same (s : Specs) (k : SpecKey) (v : String) :
    getKey (setKey s k v) k = some v := by
  cases k <;> rfl

theorem getKey_setKey_ne (s : Specs) {k j : SpecKey} (v : String) (h : k ≠ j) :
    getKey (setKey s j v) k = getKey s k := by
  cases k <;> cases j <;> first | exact absurd rfl h | rfl

theorem getKey_empty (k : SpecKey) : getKey ({} : Specs) k = none := by
  cases k <;> rfl

theorem okSpecVal_eq_some {value : String} {n : Nat} {w : String}
    (h : okSpecVal value n = some w) : w = okSanitized value n ∧ w ≠ "" := by
  unfold okSpecVal at h
  split at h
  · exact absurd h (by simp)
  · split at h
    · exact absurd h (by simp)
    · rename_i hcond _
      obtain rfl := Option.some.inj h
      exact ⟨rfl, fun hw => hcond (Or.inl hw)⟩

theorem rowAssign_some_facts {r : List String} {k : SpecKey} {v : String}
    (h : rowAssign r = some (k, v)) : v ≠ "" ∧ k ≠ SpecKey.image_url := by
  have main : ∀ (key : SpecKey) (c1 : String), key ≠ SpecKey.image_url →
      (okSpecVal c1 35).map (fun u => (key, u)) = some (k, v) →
      v ≠ "" ∧ k ≠ SpecKey.image_url := by
    intro key c1 hkey hmap
    obtain ⟨w, hw, hkv⟩ := Option.map_eq_some'.mp hmap
    injection hkv with hk hv
    subst hk
    subst hv
    exact ⟨(okSpecVal_eq_some hw).2, hkey⟩
  match r with
  | [] => exact absurd h (by simp [rowAssign])
  | [_] => exact absurd h (by simp [rowAssign])
  | c0 :: c1 :: rest =>
    simp only [rowAssign] at h
    split at h
    · exact main _ c1 (by simp) h
    · split at h
      · exact main _ c1 (by simp) h
      · split at h
        · exact main _ c1 (by simp) h
        · split at h
          · exact main _ c1 (by simp) h
          · split at h
            · exact main _ c1 (by simp) h
            · split at h
              · exact main _ c1 (by simp) h
              · split at h
                · split at h
                  · rename_i hcond
                    have hkv := Option.some.inj h
                    injection hkv with hk hv
                    subst hk
                    subst hv
                    refine ⟨?_, by simp⟩
                    have hy := ((Bool.and_eq_true _ _).mp hcond).2
                    unfold yearLike at hy
                    intro hemp
                    rw [hemp] at hy
                    simp at hy
                  · exact Option.noConfusion h
                · exact Option.noConfusion h

theorem tier1Step_no_assign {r : List String} (s : Specs)
    (h : rowAssign r = none) : tier1Step s r = s := by
  simp [tier1Step, h]

theorem foldl_tier1_preserve {l : List (List String)} {k : SpecKey} (s : Specs)
    (h : ∀ r' ∈ l, ∀ v', rowAssign r' ≠ some (k, v')) :
    getKey (l.foldl tier1Step s) k = getKey s k := by
  induction l generalizing s with
  | nil => rfl
  | cons r rest ih =>
    have hstep : getKey (tier1Step s r) k = getKey s k := by
      unfold tier1Step
      match hr : rowAssign r with
      | none => rfl
      | some (k', v') =>
        have hne : k ≠ k' := by
          rintro rfl
          exact h r (List.mem_cons_self r rest) v' hr
        exact getKey_setKey_ne s v' hne
    rw [List.foldl_cons, ih (tier1Step s r) (fun r' hr' => h r' (List.mem_cons_of_mem r hr')), hstep]

theorem tier1_last_aux (l1 : List (List String)) {l2 : List (List String)}
    {r : List String} {k : SpecKey} {v : String}
    (hr : rowAssign r = some (k, v))
    (hl2 : ∀ r' ∈ l2, ∀ v', rowAssign r' ≠ some (k, v')) :
    getKey (tier1 (l1 ++ r :: l2)) k = some v := by
  unfold tier1
  rw [List.foldl_append, List.foldl_cons]
  rw [foldl_tier1_preserve _ hl2]
  unfold tier1Step
  rw [hr]
  exact getKey_setKey_same _ k v

theorem tier1_values_ne_empty (rows : List (List String)) (k : SpecKey)
    (w : String) (h : getKey (tier1 rows) k = some w) : w ≠ "" := by
  unfold tier1 at h
  suffices hgen : ∀ (l : List (List String)) (s : Specs),
      (∀ k' w', getKey s k' = some w' → w' ≠ "") →
      ∀ k' w', getKey (l.foldl tier1Step s) k' = some w' → w' ≠ "" by
    exact hgen rows {} (fun k' w' h' => by rw [getKey_empty] at h'; exact absurd h' (by simp)) k w h
  intro l
  induction l with
  | nil => intro s hs; exact hs
  | cons r rest ih =>
    intro s hs
    rw [List.foldl_cons]
    refine ih (tier1Step s r) ?_
    intro k' w' h'
    unfold tier1Step at h'
    match hr : rowAssign r with
    | none => rw [hr] at h'; exact hs k' w' h'
    | some (ka, va) =>
      rw [hr] at h'
      by_cases hk : k' = ka
      · subst hk
        rw [getKey_setKey_same] at h'
        obtain rfl := Option.some.inj h'
        exact (rowAssign_some_facts hr).1
      · rw [getKey_setKey_ne _ _ hk] at h'
        exact hs k' w' h'

theorem fillIfEmpty_preserve {s : Specs} {k : SpecKey} {w : String}
    (hk : getKey s k = some w) (hw : w ≠ "") (j : SpecKey) (res : Option String) :
    getKey (fillIfEmpty s j res) k = some w := by
  unfold fillIfEmpty
  by_cases hkj : k = j
  · subst hkj
    rw [hk]
    have : pyFalsy (some w) = false := by
      simp [pyFalsy, hw]
    rw [this]
    simp only [Bool.false_eq_true, if_false]
    exact hk
  · split
    · match res with
      | some u => exact (getKey_setKey_ne s u hkj).trans hk
      | none => exact hk
    · exact hk

theorem tier2_preserve {s : Specs} {k : SpecKey} {w : String}
    (m : Tier2Matchers) (text url : String)
    (hk : getKey s k = some w) (hw : w ≠ "") :
    getKey (tier2 m text url s) k = some w := by
  unfold tier2
  exact fillIfEmpty_preserve
    (fillIfEmpty_preserve
      (fillIfEmpty_preserve
        (fillIfEmpty_preserve
          (fillIfEmpty_preserve
            (fillIfEmpty_preserve
              (fillIfEmpty_preserve hk hw _ _) hw _ _) hw _ _) hw _ _) hw _ _)
        hw _ _) hw _ _

theorem tier1Run_raises {rows : List (Fallible (List String))}
    (h : Fallible.raises ∈ rows) (s : Specs) : tier1Run s rows = none := by
  induction rows generalizing s with
  | nil => exact absurd h (by simp)
  | cons r rest ih =>
    match r with
    | .raises => rfl
    | .ok cells =>
      have : Fallible.raises ∈ rest := by
        rcases List.mem_cons.mp h with h' | h'
        · exact absurd h' (by simp)
        · exact h'
      exact ih this (tier1Step s cells)

theorem tier1Run_map_ok (l : List (List String)) (s : Specs) :
    tier1Run s (l.map Fallible.ok) = some (l.foldl tier1Step s) := by
  induction l generalizing s with
  | nil => rfl
  | cons r rest ih => exact ih (tier1Step s r)

theorem findFirst_map_ok (f : String → Option String) (l : List String) :
    ∃ r, findFirst f (l.map Fallible.ok) = some r := by
  induction l with
  | nil => exact ⟨none, rfl⟩
  | cons src rest ih =>
    simp only [List.map_cons, findFirst]
    match f src with
    | some u => exact ⟨some u, rfl⟩
    | none => exact ih

theorem getModelSpecs_ok_getKey (m : Tier2Matchers)
    (urlJoin : String → String → String) (rows : List (List String))
    (text modelUrl : String) (imgs : List String) {k : SpecKey} {v : String}
    (hk : k ≠ SpecKey.image_url)
    (hv : getKey (tier2 m text modelUrl (tier1 rows)) k = some v) :
    ∃ out,
      getModelSpecs m urlJoin (rows.map Fallible.ok) text modelUrl
        (imgs.map Fallible.ok) = some out ∧ getKey out k = some v := by
  obtain ⟨r1, hr1⟩ := findFirst_map_ok (imgKeep1 urlJoin modelUrl) imgs
  obtain ⟨r2, hr2⟩ := findFirst_map_ok (imgKeep2 urlJoin modelUrl) imgs
  unfold getModelSpecs
  rw [tier1Run_map_ok, hr1, hr2]
  have h3 : ∀ s3 : Specs, getKey s3 k = some v →
      ∃ out,
        (match
            (if s3.image_url = none then
              match (some r2 : Option (Option String)) with
              | none => none
              | some (some u) => some (setKey s3 .image_url u)
              | some none => some s3
            else some s3) with
          | none => none
          | some s4 => if s4 = ({} : Specs) then none else some s4) = some out ∧
        getKey out k = some v := by
    intro s3 hs3
    have hfin : ∀ s4 : Specs, getKey s4 k = some v →
        ∃ out, (if s4 = ({} : Specs) then none else some s4) = some out ∧
          getKey out k = some v := by
      intro s4 hs4
      refine ⟨s4, ?_, hs4⟩
      rw [if_neg]
      intro hemp
      rw [hemp, getKey_empty] at hs4
      exact Option.noConfusion hs4
    by_cases hempty : s3.image_url = none
    · rw [if_pos hempty]
      match r2 with
      | some u =>
        exact hfin (setKey s3 .image_url u) ((getKey_setKey_ne s3 u hk).trans hs3)
      | none => exact hfin s3 hs3
    · rw [if_neg hempty]
      exact hfin s3 hs3
  match r1 with
  | some u =>
    exact h3 (setKey _ .image_url u)
      ((getKey_setKey_ne _ u hk).trans hv)
  | none => exact h3 _ hv

theorem rowsWithY_map_y (items : List (String × String)) (start : Int) :
    (rowsWithY items start).map (fun t => t.2.2) =
      (List.range items.length).map (fun i : Nat => start + (i : Int) * lineHeight) := by
  unfold rowsWithY
  rw [List.map_map]
  have hcomp : ((fun t : String × String × Int => t.2.2) ∘
      (fun iv : Nat × (String × String) =>
        (iv.2.1, iv.2.2, start + (iv.1 : Int) * lineHeight))) =
      (fun i : Nat => start + (i : Int) * lineHeight) ∘ Prod.fst := rfl
  rw [hcomp, ← List.map_map, List.enum_map_fst]

theorem dictGet_mem {α : Type} {k : String} {v : α} :
    ∀ {l : List (String × α)}, dictGet k l = some v → (k, v) ∈ l := by
  intro l
  induction l with
  | nil => intro h; exact Option.noConfusion h
  | cons p rest ih =>
    intro h
    unfold dictGet at h
    split at h
    · rename_i hp
      obtain ⟨pk, pv⟩ := p
      obtain rfl : pk = k := hp
      obtain rfl := Option.some.inj h
      exact List.mem_cons_self _ _
    · exact List.mem_cons_of_mem _ (ih h)

theorem drawFlagOps_ne_nil {fs : FlagSpec} (hwf : fs.wfColors) (x y w h : Int) :
    drawFlagOps fs x y w h ≠ [] := by
  cases fs with
  | horiz cs =>
    match cs with
    | [] => exact absurd rfl hwf
    | c :: rest => simp [drawFlagOps, stripeOps]
  | vert cs =>
    match cs with
    | [] => exact absurd rfl hwf
    | c :: rest => simp [drawFlagOps, stripeOps]
  | circle bg fg => simp [drawFlagOps]
  | cross bg fg => simp [drawFlagOps]

theorem checkCountry_draw {c : String} (h : checkCountry c = true)
    (x y w hh : Int) : drawCountryFlag c x y w hh ≠ [] := by
  unfold checkCountry at h
  rw [Bool.and_eq_true] at h
  obtain ⟨h1, h2⟩ := h
  have hne : takeStr (upperStr c) 2 ≠ "" := by
    simpa using h1
  unfold drawCountryFlag
  rw [if_neg hne]
  match hd : dictGet (takeStr (upperStr c) 2) flagDefinitions with
  | none => rw [hd] at h2; exact absurd h2 (by simp)
  | some fs =>
    rw [hd] at h2
    simp only [decide_eq_true_eq] at h2
    exact drawFlagOps_ne_nil h2 x y w hh

theorem allBrandsGood : brandCountry.all (fun p => checkCountry p.2) = true := by
  decide

/-! Band arithmetic for the stripe kinds.  `Int.fdiv` by a natural number
is euclidean division. -/

theorem natCast_fdiv (a : Int) (n : Nat) : Int.fdiv a (n : Int) = a / (n : Int) :=
  Int.fdiv_eq_ediv a (Int.natCast_nonneg n)

theorem band_mono {h : Int} (hh : 0 ≤ h) (n : Nat) {i j : Nat} (hij : i ≤ j) :
    ((i : Int) * h) / (n : Int) ≤ ((j : Int) * h) / (n : Int) := by
  match n with
  | 0 => simp
  | Nat.succ m =>
    refine Int.ediv_le_ediv (by positivity) ?_
    exact mul_le_mul_of_nonneg_right (by exact_mod_cast hij) hh

theorem band_zero (h : Int) (n : Nat) : ((0 : Int) * h) / (n : Int) = 0 := by
  simp

theorem band_last (h : Int) {n : Nat} (hn : n ≠ 0) :
    (((n : Nat) : Int) * h) / (n : Int) = h :=
  Int.mul_ediv_cancel_left h (by exact_mod_cast hn)

theorem band_nonneg {h : Int} (hh : 0 ≤ h) (n i : Nat) :
    0 ≤ ((i : Int) * h) / (n : Int) :=
  Int.ediv_nonneg (by positivity) (Int.natCast_nonneg n)

theorem exists_between (g : Nat → Int) :
    ∀ n : Nat, 0 < n → ∀ r : Int, g 0 ≤ r → r ≤ g n →
      ∃ i, i < n ∧ g i ≤ r ∧ r ≤ g (i + 1) := by
  intro n
  induction n with
  | zero => intro hn; exact absurd hn (by simp)
  | succ m ih =>
    intro _ r h0 h1
    by_cases hm : g m ≤ r
    · exact ⟨m, Nat.lt_succ_self m, hm, h1⟩
    · have hmpos : 0 < m := by
        rcases Nat.eq_zero_or_pos m with rfl | hp
        · exact absurd h0 hm
        · exact hp
      obtain ⟨i, hi, hgi, hgi1⟩ := ih hmpos r h0 (le_of_not_le hm)
      exact ⟨i, Nat.lt_succ_of_lt hi, hgi, hgi1⟩

theorem exists_band (h : Int) {n : Nat} (hn : 0 < n) (r : Int)
    (h0 : 0 ≤ r) (h1 : r ≤ h) :
    ∃ i, i < n ∧ ((i : Int) * h) / (n : Int) ≤ r ∧
      r ≤ (((i + 1 : Nat) : Int) * h) / (n : Int) := by
  have hne : n ≠ 0 := by omega
  obtain ⟨i, hi, ha, hb⟩ := exists_between
    (fun i : Nat => ((i : Int) * h) / (n : Int)) n hn r
    (by show ((0 : Nat) : Int) * h / (n : Int) ≤ r; simpa using h0)
    (by show r ≤ ((n : Nat) : Int) * h / (n : Int); rw [band_last h hne]; exact h1)
  refine ⟨i, hi, ?_, ?_⟩
  · simpa only [] using ha
  · simpa only [] using hb

theorem stripeOps_mem {mk : Nat → String → Shape} :
    ∀ (cs : List String) (i0 j : Nat), j < cs.length →
      ∃ c, mk (i0 + j) c ∈ stripeOps mk i0 cs := by
  intro cs
  induction cs with
  | nil => intro i0 j hj; simp at hj
  | cons c rest ih =>
    intro i0 j hj
    match j with
    | 0 => exact ⟨c, by simp [stripeOps]⟩
    | Nat.succ j' =>
      obtain ⟨c', hc'⟩ := ih (i0 + 1) j' (Nat.lt_of_succ_lt_succ hj)
      refine ⟨c', List.mem_cons_of_mem _ ?_⟩
      have harith : i0 + (j' + 1) = i0 + 1 + j' := by omega
      rw [harith]
      exact hc'

theorem stripeOps_mem_inv {mk : Nat → String → Shape} :
    ∀ (cs : List String) (i0 : Nat) (s : Shape), s ∈ stripeOps mk i0 cs →
      ∃ j c, j < cs.length ∧ s = mk (i0 + j) c := by
  intro cs
  induction cs with
  | nil => intro i0 s hs; simp [stripeOps] at hs
  | cons c rest ih =>
    intro i0 s hs
    rcases List.mem_cons.mp hs with h | h
    · exact ⟨0, c, by simp, by rw [Nat.add_zero]; exact h⟩
    · obtain ⟨j, c', hj, hc⟩ := ih (i0 + 1) s h
      refine ⟨j + 1, c', by simp only [List.length_cons]; omega, ?_⟩
      have harith : i0 + (j + 1) = i0 + 1 + j := by omega
      rw [harith]
      exact hc

theorem hShape_covers {n : Nat} {x y w h : Int} {i : Nat} {c : String}
    {p : Int × Int} :
    (hShape n x y w h i c).covers p ↔
      x ≤ p.1 ∧ p.1 ≤ x + w ∧
      y + ((i : Int) * h) / (n : Int) ≤ p.2 ∧
      p.2 ≤ y + (((i + 1 : Nat) : Int) * h) / (n : Int) := by
  simp only [hShape, Shape.covers, natCast_fdiv]

theorem vShape_covers {n : Nat} {x y w h : Int} {i : Nat} {c : String}
    {p : Int × Int} :
    (vShape n x y w h i c).covers p ↔
      x + ((i : Int) * w) / (n : Int) ≤ p.1 ∧
      p.1 ≤ x + (((i + 1 : Nat) : Int) * w) / (n : Int) ∧
      y ≤ p.2 ∧ p.2 ≤ y + h := by
  simp only [vShape, Shape.covers, natCast_fdiv]

theorem stripes_h_cover {cs : List String} (hcs : cs ≠ []) {x y w h : Int}
    (hh : 0 ≤ h) (p : Int × Int) :
    inTarget x y w h p ↔ pointPainted (drawFlagOps (.horiz cs) x y w h) p := by
  have hn : 0 < cs.length := List.length_pos.mpr hcs
  have hne : cs.length ≠ 0 := by omega
  constructor
  · rintro ⟨hx1, hx2, hy1, hy2⟩
    obtain ⟨i, hin, h1, h2⟩ := exists_band h hn (p.2 - y)
      (sub_nonneg.mpr hy1) (sub_le_iff_le_add'.mpr hy2)
    obtain ⟨c, hc⟩ := stripeOps_mem cs 0 i hin
    rw [Nat.zero_add] at hc
    refine ⟨hShape cs.length x y w h i c, ?_, ?_⟩
    · simpa [drawFlagOps] using hc
    · exact hShape_covers.mpr ⟨hx1, hx2, by linarith, by linarith⟩
  · rintro ⟨s, hs, hcov⟩
    simp only [drawFlagOps] at hs
    obtain ⟨j, c, hj, rfl⟩ := stripeOps_mem_inv cs 0 s hs
    rw [Nat.zero_add] at hcov
    rw [hShape_covers] at hcov
    obtain ⟨h1, h2, h3, h4⟩ := hcov
    refine ⟨h1, h2, ?_, ?_⟩
    · have := band_nonneg hh cs.length j
      linarith
    · have hstep : (((j + 1 : Nat) : Int) * h) / (cs.length : Int) ≤
          ((cs.length : Int) * h) / (cs.length : Int) := band_mono hh cs.length hj
      rw [band_last h hne] at hstep
      linarith

theorem stripes_v_cover {cs : List String} (hcs : cs ≠ []) {x y w h : Int}
    (hw : 0 ≤ w) (p : Int × Int) :
    inTarget x y w h p ↔ pointPainted (drawFlagOps (.vert cs) x y w h) p := by
  have hn : 0 < cs.length := List.length_pos.mpr hcs
  have hne : cs.length ≠ 0 := by omega
  constructor
  · rintro ⟨hx1, hx2, hy1, hy2⟩
    obtain ⟨i, hin, h1, h2⟩ := exists_band w hn (p.1 - x)
      (sub_nonneg.mpr hx1) (sub_le_iff_le_add'.mpr hx2)
    obtain ⟨c, hc⟩ := stripeOps_mem cs 0 i hin
    rw [Nat.zero_add] at hc
    refine ⟨vShape cs.length x y w h i c, ?_, ?_⟩
    · simpa [drawFlagOps] using hc
    · exact vShape_covers.mpr ⟨by linarith, by linarith, hy1, hy2⟩
  · rintro ⟨s, hs, hcov⟩
    simp only [drawFlagOps] at hs
    obtain ⟨j, c, hj, rfl⟩ := stripeOps_mem_inv cs 0 s hs
    rw [Nat.zero_add] at hcov
    rw [vShape_covers] at hcov
    obtain ⟨h1, h2, h3, h4⟩ := hcov
    refine ⟨?_, ?_, h3, h4⟩
    · have := band_nonneg hw cs.length j
      linarith
    · have hstep : (((j + 1 : Nat) : Int) * w) / (cs.length : Int) ≤
          ((cs.length : Int) * w) / (cs.length : Int) := band_mono hw cs.length hj
      rw [band_last w hne] at hstep
      linarith

theorem circle_cover (bg fg : String) {x y w h : Int} (hw : 0 ≤ w) (hh : 0 ≤ h)
    (p : Int × Int) :
    inTarget x y w h p ↔ pointPainted (drawFlagOps (.circle bg fg) x y w h) p := by
  constructor
  · rintro ⟨hx1, hx2, hy1, hy2⟩
    refine ⟨Shape.rect x y (x + w) (y + h) bg, by simp [drawFlagOps], ?_⟩
    simp only [Shape.covers]
    exact ⟨hx1, hx2, hy1, hy2⟩
  · rintro ⟨s, hs, hcov⟩
    simp only [drawFlagOps, List.mem_cons, List.mem_singleton, List.not_mem_nil,
      or_false] at hs
    rcases hs with rfl | rfl
    · simp only [Shape.covers] at hcov
      exact ⟨hcov.1, hcov.2.1, hcov.2.2.1, hcov.2.2.2⟩
    · simp only [Shape.covers] at hcov
      obtain ⟨⟨hb1, hb2, hb3, hb4⟩, _⟩ := hcov
      have e2 : Int.fdiv w 2 = w / 2 := Int.fdiv_eq_ediv w (by norm_num)
      have e3 : Int.fdiv h 2 = h / 2 := Int.fdiv_eq_ediv h (by norm_num)
      have e4 : Int.fdiv (7 * min w h) 20 = (7 * min w h) / 20 :=
        Int.fdiv_eq_ediv _ (by norm_num)
      simp only [e2, e3, e4] at hb1 hb2 hb3 hb4
      refine ⟨?_, ?_, ?_, ?_⟩ <;> omega

theorem cross_cover (bg fg : String) {x y w h : Int} (hw : 2 ≤ w) (hh : 2 ≤ h)
    (p : Int × Int) :
    inTarget x y w h p ↔ pointPainted (drawFlagOps (.cross bg fg) x y w h) p := by
  have e5w : Int.fdiv w 5 = w / 5 := Int.fdiv_eq_ediv w (by norm_num)
  have e5h : Int.fdiv h 5 = h / 5 := Int.fdiv_eq_ediv h (by norm_num)
  have e2w : Int.fdiv (w - max 2 (w / 5)) 2 = (w - max 2 (w / 5)) / 2 :=
    Int.fdiv_eq_ediv _ (by norm_num)
  have e2h : Int.fdiv (h - max 2 (h / 5)) 2 = (h - max 2 (h / 5)) / 2 :=
    Int.fdiv_eq_ediv _ (by norm_num)
  constructor
  · rintro ⟨hx1, hx2, hy1, hy2⟩
    refine ⟨Shape.rect x y (x + w) (y + h) bg, by simp [drawFlagOps], ?_⟩
    simp only [Shape.covers]
    exact ⟨hx1, hx2, hy1, hy2⟩
  · rintro ⟨s, hs, hcov⟩
    simp only [drawFlagOps, List.mem_cons, List.mem_singleton, List.not_mem_nil,
      or_false] at hs
    rcases hs with rfl | rfl | rfl
    · simp only [Shape.covers] at hcov
      exact ⟨hcov.1, hcov.2.1, hcov.2.2.1, hcov.2.2.2⟩
    · simp only [Shape.covers] at hcov
      obtain ⟨hb1, hb2, hb3, hb4⟩ := hcov
      simp only [e5w, e2w] at hb1 hb2
      refine ⟨?_, ?_, hb3, hb4⟩ <;> omega
    · simp only [Shape.covers] at hcov
      obtain ⟨hb1, hb2, hb3, hb4⟩ := hcov
      simp only [e5h, e2h] at hb3 hb4
      refine ⟨hb1, hb2, ?_, ?_⟩ <;> omega


theorem ratFloor_eq_floor (q : ℚ) : Rat.floor q = ⌊q⌋ := by
  rw [Rat.floor_def', Rat.floor_def]

/-! ## Claims -/

/-- C1, counterexample: the Tier-1 scan is last-wins, not first-wins.  In
a table whose rows `["engine", "2.5L TFSI"]` and `["Engine type",
"3.0L TDI"]` are both accepted for the `engine` field, the returned set
holds the second row's value, not the first accepted one. -/
theorem c1_counterexample :
    (tier1 [["engine", "2.5L TFSI"], ["Engine type", "3.0L TDI"]]).engine =
      some "3.0L TDI" ∧
    rowAssign ["engine", "2.5L TFSI"] = some (SpecKey.engine, "2.5L TFSI") ∧
    ("3.0L TDI" : String) ≠ "2.5L TFSI" := by
  refine ⟨by decide, by decide, by decide⟩

/-- C1, amended: in the Tier-1 structured table scan, for every
specification field the LAST accepted value in table-row order is the one
present in the returned set — each accepted row overwrites the field, so
a later accepted row replaces an earlier one. -/
theorem c1_last_accepted_wins (l1 l2 : List (List String)) (r : List String)
    (k : SpecKey) (v : String) (hr : rowAssign r = some (k, v))
    (hl2 : ∀ r' ∈ l2, ∀ v', rowAssign r' ≠ some (k, v')) :
    getKey (tier1 (l1 ++ r :: l2)) k = some v :=
  tier1_last_aux l1 hr hl2

theorem c1_last_accepted_wins_witness :
    rowAssign ["engine", "4.0L V8"] = some (SpecKey.engine, "4.0L V8") ∧
    getKey (tier1 ([["Engine", "5.2L V10"]] ++ ["engine", "4.0L V8"] :: []))
      SpecKey.engine = some "4.0L V8" :=
  ⟨by decide,
   c1_last_accepted_wins [["Engine", "5.2L V10"]] [] ["engine", "4.0L V8"]
     SpecKey.engine "4.0L V8" (by decide) (by simp)⟩

/-- C2, counterexample: `get_model_specs` has a single `try`/`except`
around its whole body, so an exception while processing one table row is
NOT skipped per item — the whole extraction returns `None`, losing the
field already extracted from the preceding good row (which the same input
without the faulty row does produce). -/
theorem c2_counterexample :
    getModelSpecs noMatchers idJoin
      [Fallible.ok ["engine", "2.5L TFSI"], Fallible.raises] "" "" [] = none ∧
    getModelSpecs noMatchers idJoin
      [Fallible.ok ["engine", "2.5L TFSI"]] "" "" [] =
      some { engine := some "2.5L TFSI" } := by
  refine ⟨by decide, by decide⟩

/-- C2, amended: an exception raised while processing any single table
row propagates to the one `except` handler wrapping the whole of
`get_model_specs`, which returns `None`: no remaining item is processed
and no partial fields are returned. -/
theorem c2_exception_aborts_all (m : Tier2Matchers)
    (urlJoin : String → String → String) (rows : List (Fallible (List String)))
    (text url : String) (imgs : List (Fallible String))
    (h : Fallible.raises ∈ rows) :
    getModelSpecs m urlJoin rows text url imgs = none := by
  unfold getModelSpecs
  rw [tier1Run_raises h]

theorem c2_exception_aborts_all_witness :
    Fallible.raises ∈ [Fallible.ok ["power", "394 HP"], Fallible.raises] ∧
    getModelSpecs noMatchers idJoin
      [Fallible.ok ["power", "394 HP"], Fallible.raises] "txt" "url" [] = none :=
  ⟨by decide,
   c2_exception_aborts_all noMatchers idJoin _ "txt" "url" [] (by decide)⟩

/-- C3, counterexample: instantiated at the FIRST accepted row
`["power", "394 HP"]` of an input that also contains a later accepted
`power` row, the extractor's output does not hold that row's sanitized
value `"394 HP"` — it holds the later row's value — so the claim as
stated (output contains the field with THE matched row's sanitized value)
fails. -/
theorem c3_counterexample :
    getModelSpecs noMatchers idJoin
      [Fallible.ok ["power", "394 HP"], Fallible.ok ["horsepower", "400 PS"]]
      "" "" [] = some { power := some "400 PS" } ∧
    rowAssign ["power", "394 HP"] = some (SpecKey.power, "394 HP") ∧
    okSpecVal "394 HP" 35 = some "394 HP" ∧
    ("400 PS" : String) ≠ "394 HP" := by
  refine ⟨by decide, by decide, by decide, by decide⟩

/-- C3, amended: for every input containing a well-formed two-cell row
accepted for a field, the extractor's output contains that field with the
sanitized value of the LAST accepted row for it, and the Tier-2 regex
fallback never changes a field Tier 1 populated (each Tier-2 block runs
under an absent-key guard). -/
theorem c3_tier1_value_kept (m : Tier2Matchers)
    (urlJoin : String → String → String) (l1 l2 : List (List String))
    (r : List String) (k : SpecKey) (v : String) (text url : String)
    (imgs : List String) (hr : rowAssign r = some (k, v))
    (hl2 : ∀ r' ∈ l2, ∀ v', rowAssign r' ≠ some (k, v')) :
    getKey (tier2 m text url (tier1 (l1 ++ r :: l2))) k =
      getKey (tier1 (l1 ++ r :: l2)) k ∧
    ∃ out,
      getModelSpecs m urlJoin ((l1 ++ r :: l2).map Fallible.ok) text url
        (imgs.map Fallible.ok) = some out ∧ getKey out k = some v := by
  have h1 := tier1_last_aux l1 hr hl2
  have hne := (rowAssign_some_facts hr).1
  have himg := (rowAssign_some_facts hr).2
  have h2 := tier2_preserve m text url h1 hne
  exact ⟨h2.trans h1.symm,
    getModelSpecs_ok_getKey m urlJoin _ text url imgs himg h2⟩

theorem c3_tier1_value_kept_witness :
    rowAssign ["torque", "480 Nm"] = some (SpecKey.torque, "480 Nm") ∧
    (getKey (tier2 noMatchers "" "" (tier1 ([] ++ ["torque", "480 Nm"] :: [])))
        SpecKey.torque =
      getKey (tier1 ([] ++ ["torque", "480 Nm"] :: [])) SpecKey.torque ∧
    ∃ out,
      getModelSpecs noMatchers idJoin
        (([] ++ ["torque", "480 Nm"] :: []).map Fallible.ok) "" ""
        (([] : List String).map Fallible.ok) = some out ∧
      getKey out SpecKey.torque = some "480 Nm") :=
  ⟨by decide,
   c3_tier1_value_kept noMatchers idJoin [] [] ["torque", "480 Nm"]
     SpecKey.torque "480 Nm" "" "" [] (by decide) (by simp)⟩

/-- C4: for every input whose whitespace-normalized form is longer than
`max_len` (taken positive, as at both call sites of
`_sanitize_spec_value`), the sanitized output has length exactly
`max_len` and ends in the ellipsis character; empty or missing input
yields the empty string. -/
theorem c4_sanitize_cap (v0 : Option String) (maxLen : Nat) (hpos : 1 ≤ maxLen) :
    ((wsNormalized v0).length > maxLen →
      strLen (sanitizeSpecValue v0 maxLen) = maxLen ∧
      (sanitizeSpecValue v0 maxLen).data.getLast? = some ellipsisChar) ∧
    ((v0 = none ∨ v0 = some "") → sanitizeSpecValue v0 maxLen = "") := by
  constructor
  · intro hlong
    match v0 with
    | none =>
      simp only [wsNormalized, List.length_nil] at hlong
      omega
    | some s =>
      by_cases hs : s = ""
      · subst hs
        have h0 : wsNormalized (some "") = [] := rfl
        rw [h0] at hlong
        exact absurd hlong (by simp)
      · have hws : wsNormalized (some s) =
            replaceCh '\r' ' ' (replaceCh '\n' ' ' (pyStripL s.data)) := by
          simp only [wsNormalized, if_neg hs]
        rw [hws] at hlong
        have heq : sanitizeSpecValue (some s) maxLen =
            ⟨(replaceCh '\r' ' ' (replaceCh '\n' ' ' (pyStripL s.data))).take
              (maxLen - 1) ++ [ellipsisChar]⟩ := by
          show (if s = "" then "" else
            if (replaceCh '\r' ' ' (replaceCh '\n' ' ' (pyStripL s.data))).length >
                maxLen then
              (⟨(if maxLen = 0 then
                  (replaceCh '\r' ' ' (replaceCh '\n' ' ' (pyStripL s.data))).dropLast
                else
                  (replaceCh '\r' ' ' (replaceCh '\n' ' '
                    (pyStripL s.data))).take (maxLen - 1)) ++ [ellipsisChar]⟩ : String)
            else ⟨replaceCh '\r' ' ' (replaceCh '\n' ' ' (pyStripL s.data))⟩) = _
          rw [if_neg hs, if_pos hlong, if_neg (by omega : ¬maxLen = 0)]
        rw [heq]
        constructor
        · show ((replaceCh '\r' ' ' (replaceCh '\n' ' ' (pyStripL s.data))).take
            (maxLen - 1) ++ [ellipsisChar]).length = maxLen
          rw [List.length_append, List.length_take]
          simp only [List.length_singleton]
          omega
        · exact List.getLast?_concat _
  · rintro (rfl | rfl) <;> rfl

theorem c4_sanitize_cap_witness :
    strLen (sanitizeSpecValue (some "a long string that exceeds the cap!") 22) =
      22 ∧
    (sanitizeSpecValue (some "a long string that exceeds the cap!")
      22).data.getLast? = some ellipsisChar :=
  (c4_sanitize_cap (some "a long string that exceeds the cap!") 22
    (by decide)).1 (by decide)

/-- C5: a Tier-1 candidate value is accepted by `_ok_spec_val` exactly
when its 35-character sanitization is non-empty, within the cap, and
contains no reject-list substring case-insensitively; in particular
`"Twin-Turbo Coupe Variant"` is rejected and a lone engine row carrying
it leaves the `engine` field absent after Tier 1. -/
theorem c5_reject_rule :
    (∀ v : String, (okSpecVal v 35).isSome ↔
      (okSanitized v 35 ≠ "" ∧ strLen (okSanitized v 35) ≤ 35 ∧
        ∀ b ∈ rejectList, containsSub (lowerStr (okSanitized v 35)) b = false)) ∧
    okSpecVal "Twin-Turbo Coupe Variant" 35 = none ∧
    (tier1 [["Engine", "Twin-Turbo Coupe Variant"]]).engine = none := by
  refine ⟨?_, by decide, by decide⟩
  intro v
  unfold okSpecVal
  split
  · rename_i hcond
    simp only [Option.isSome_none, Bool.false_eq_true, false_iff]
    rintro ⟨hne, hlen, -⟩
    rcases hcond with h | h
    · exact hne h
    · omega
  · rename_i hcond
    push_neg at hcond
    split
    · rename_i hany
      simp only [Option.isSome_none, Bool.false_eq_true, false_iff]
      rw [List.any_eq_true] at hany
      obtain ⟨b, hb, hcb⟩ := hany
      rintro ⟨-, -, hall⟩
      rw [hall b hb] at hcb
      exact Bool.noConfusion hcb
    · rename_i hany
      simp only [Option.isSome_some, true_iff]
      refine ⟨hcond.1, by omega, ?_⟩
      intro b hb
      cases hcon : containsSub (lowerStr (okSanitized v 35)) b
      · rfl
      · exact absurd (List.any_eq_true.mpr ⟨b, hb, hcon⟩) hany

theorem c5_reject_rule_witness :
    (okSpecVal "480 Nm" 35).isSome = true :=
  (c5_reject_rule.1 "480 Nm").mpr (by decide)

/-- C6: for every specification set, each spec column renders exactly as
many label/value rows as that column's populated fields, the rows keep
the fixed field order, and their y-coordinates are the consecutive
multiples `spec_y_start + i * line_height` (rows compact upward, no
gaps). -/
theorem c6_layout (s : Specs) (start : Int) :
    (midItems s).length =
      [s.engine, s.power, s.torque, s.weight].countP Option.isSome ∧
    (rightItems s).length =
      [s.acceleration_0_100, s.top_speed].countP Option.isSome ∧
    (yearItems s).length = [s.year].countP Option.isSome ∧
    List.Sublist ((midItems s).map Prod.fst)
      ["Engine", "Power", "Torque", "Weight"] ∧
    List.Sublist ((rightItems s).map Prod.fst) ["0-100 km/h", "Top speed"] ∧
    (rowsWithY (midItems s) start).map (fun t => t.2.2) =
      (List.range (midItems s).length).map
        (fun i : Nat => start + (i : Int) * lineHeight) ∧
    (rowsWithY (rightItems s) start).map (fun t => t.2.2) =
      (List.range (rightItems s).length).map
        (fun i : Nat => start + (i : Int) * lineHeight) := by
  refine ⟨?_, ?_, ?_, ?_, ?_, rowsWithY_map_y _ _, rowsWithY_map_y _ _⟩
  · cases he : s.engine <;> cases hp : s.power <;> cases ht : s.torque <;>
      cases hw : s.weight <;>
      simp [midItems, midFields, getKey, he, hp, ht, hw]
  · cases ha : s.acceleration_0_100 <;> cases hts : s.top_speed <;>
      simp [rightItems, ha, hts]
  · cases hy : s.year <;> simp [yearItems, hy]
  · cases he : s.engine <;> cases hp : s.power <;> cases ht : s.torque <;>
      cases hw : s.weight <;>
      simp [midItems, midFields, getKey, he, hp, ht, hw]
  · cases ha : s.acceleration_0_100 <;> cases hts : s.top_speed <;>
      simp [rightItems, ha, hts]

theorem c6_layout_witness :
    (midItems { engine := some "2.5L TFSI", torque := some "480 Nm", top_speed := some "250 km/h" }).length =
      [some "2.5L TFSI", none, some "480 Nm", none].countP Option.isSome :=
  (c6_layout { engine := some "2.5L TFSI", torque := some "480 Nm", top_speed := some "250 km/h" } 1220).1

/-- C7, counterexample: for the cross pattern on a width-1 target
rectangle the vertical bar's left edge is `x + (1 - 2) // 2 = x - 1`, one
pixel outside the rectangle's bounds, so the claim as stated for EVERY
target rectangle fails. -/
theorem c7_counterexample :
    pointPainted (drawFlagOps (.cross "#006AA7" "#FECC00") 0 0 1 24) (-1, 0) ∧
    ¬inTarget 0 0 1 24 (-1, 0) := by
  refine ⟨by decide, by decide⟩

/-- C7, amended: for every flag pattern kind drawn into a target
rectangle at non-negative coordinates with width and height at least 2
(the source always draws 36×24; `int` truncation coincides with the floor
only for non-negative coordinates), the painted pixels are exactly the
rectangle — every pixel inside is colored and none outside — and two
adjacent floor-rounded stripe bands overlap in exactly their shared
boundary line, never leaving a gap nor overlapping by more than one
pixel. -/
theorem c7_flag_cover (fs : FlagSpec) (x y w h : Int) (hx : 0 ≤ x) (hy : 0 ≤ y)
    (hw : 2 ≤ w) (hh : 2 ≤ h) (hwf : fs.wfColors) :
    (∀ p : Int × Int, inTarget x y w h p ↔ pointPainted (drawFlagOps fs x y w h) p) ∧
    (∀ (n i : Nat) (c c' : String) (p : Int × Int),
      (hShape n x y w h i c).covers p → (hShape n x y w h (i + 1) c').covers p →
      p.2 = y + Int.fdiv (((i + 1 : Nat) : Int) * h) n) ∧
    (∀ (n i : Nat) (c c' : String) (p : Int × Int),
      (vShape n x y w h i c).covers p → (vShape n x y w h (i + 1) c').covers p →
      p.1 = x + Int.fdiv (((i + 1 : Nat) : Int) * w) n) := by
  refine ⟨?_, ?_, ?_⟩
  · intro p
    cases fs with
    | horiz cs => exact stripes_h_cover hwf (by omega) p
    | vert cs => exact stripes_v_cover hwf (by omega) p
    | circle bg fg => exact circle_cover bg fg (by omega) (by omega) p
    | cross bg fg => exact cross_cover bg fg hw hh p
  · intro n i c c' p h1 h2
    rw [hShape_covers] at h1 h2
    rw [natCast_fdiv]
    exact le_antisymm h1.2.2.2 h2.2.2.1
  · intro n i c c' p h1 h2
    rw [vShape_covers] at h1 h2
    rw [natCast_fdiv]
    exact le_antisymm h1.2.1 h2.1

theorem c7_flag_cover_witness :
    pointPainted
      (drawFlagOps (FlagSpec.horiz ["#000000", "#DD0000", "#FFCE00"])
        1094 1232 36 24) (1100, 1240) :=
  ((c7_flag_cover (FlagSpec.horiz ["#000000", "#DD0000", "#FFCE00"])
      1094 1232 36 24 (by decide) (by decide) (by decide) (by decide)
      (by decide)).1 (1100, 1240)).mp (by decide)

/-- C8: an unknown brand (absent from `BRAND_COUNTRY`) makes the flag
step of poster generation a no-op — zero flag pixels, no error — and a
country code absent from `FLAG_DEFINITIONS` makes `_draw_country_flag`
itself draw nothing. -/
theorem c8_unknown_no_flag :
    (∀ (brand : String) (s : Specs) (start rEnd : Int),
      dictGet (lowerStr (pyStrip brand)) brandCountry = none →
      flagStepOps brand s start rEnd = []) ∧
    (∀ (code : String) (x y w h : Int),
      dictGet (takeStr (upperStr code) 2) flagDefinitions = none →
      drawCountryFlag code x y w h = []) ∧
    (∀ p : Int × Int, ¬pointPainted [] p) := by
  refine ⟨?_, ?_, ?_⟩
  · intro brand s start rEnd hnone
    unfold flagStepOps
    rw [hnone]
  · intro code x y w h hnone
    unfold drawCountryFlag
    by_cases hcc : takeStr (upperStr code) 2 = ""
    · rw [if_pos hcc]
    · rw [if_neg hcc, hnone]
  · rintro p ⟨s, hs, -⟩
    exact absurd hs (List.not_mem_nil s)

theorem c8_unknown_no_flag_witness :
    dictGet (lowerStr (pyStrip "unknowncar")) brandCountry = none ∧
    flagStepOps "unknowncar" {} 1220 1130 = [] :=
  ⟨by decide, c8_unknown_no_flag.1 "unknowncar" {} 1220 1130 (by decide)⟩

/-- C9: the embedded image is scaled by
`min(box_w / iw, box_h / ih, 1.0)` — never upscaled, same factor on both
axes, fitting the panel — and pasted centered: the leftover margins on
opposite sides partition `box − scaled` and differ by at most one pixel. -/
theorem c9_image_scaling (boxW boxH areaTop margin iw ih : Int)
    (hiw : 0 < iw) (hih : 0 < ih) :
    imageScale boxW boxH iw ih ≤ 1 ∧
    scaledW boxW boxH iw ih ≤ iw ∧
    scaledH boxW boxH iw ih ≤ ih ∧
    scaledW boxW boxH iw ih ≤ boxW ∧
    scaledH boxW boxH iw ih ≤ boxH ∧
    0 ≤ pasteX margin boxW (scaledW boxW boxH iw ih) - (margin + 20) ∧
    (pasteX margin boxW (scaledW boxW boxH iw ih) - (margin + 20)) +
        ((margin + 20 + boxW) -
          (pasteX margin boxW (scaledW boxW boxH iw ih) +
            scaledW boxW boxH iw ih)) =
      boxW - scaledW boxW boxH iw ih ∧
    |((margin + 20 + boxW) -
        (pasteX margin boxW (scaledW boxW boxH iw ih) +
          scaledW boxW boxH iw ih)) -
      (pasteX margin boxW (scaledW boxW boxH iw ih) - (margin + 20))| ≤ 1 ∧
    0 ≤ pasteY areaTop boxH (scaledH boxW boxH iw ih) - areaTop ∧
    (pasteY areaTop boxH (scaledH boxW boxH iw ih) - areaTop) +
        ((areaTop + boxH) -
          (pasteY areaTop boxH (scaledH boxW boxH iw ih) +
            scaledH boxW boxH iw ih)) =
      boxH - scaledH boxW boxH iw ih ∧
    |((areaTop + boxH) -
        (pasteY areaTop boxH (scaledH boxW boxH iw ih) +
          scaledH boxW boxH iw ih)) -
      (pasteY areaTop boxH (scaledH boxW boxH iw ih) - areaTop)| ≤ 1 := by
  have hiwQ : (0 : ℚ) < (iw : ℚ) := by exact_mod_cast hiw
  have hihQ : (0 : ℚ) < (ih : ℚ) := by exact_mod_cast hih
  have hq1 : imageScale boxW boxH iw ih ≤ 1 := min_le_right _ _
  have hqw : imageScale boxW boxH iw ih ≤ (boxW : ℚ) / (iw : ℚ) :=
    le_trans (min_le_left _ _) (min_le_left _ _)
  have hqh : imageScale boxW boxH iw ih ≤ (boxH : ℚ) / (ih : ℚ) :=
    le_trans (min_le_left _ _) (min_le_right _ _)
  have hnw_iw : scaledW boxW boxH iw ih ≤ iw := by
    unfold scaledW
    rw [ratFloor_eq_floor]
    calc ⌊(iw : ℚ) * imageScale boxW boxH iw ih⌋ ≤ ⌊(iw : ℚ)⌋ := by
          apply Int.floor_le_floor
          nlinarith
      _ = iw := Int.floor_intCast iw
  have hnh_ih : scaledH boxW boxH iw ih ≤ ih := by
    unfold scaledH
    rw [ratFloor_eq_floor]
    calc ⌊(ih : ℚ) * imageScale boxW boxH iw ih⌋ ≤ ⌊(ih : ℚ)⌋ := by
          apply Int.floor_le_floor
          nlinarith
      _ = ih := Int.floor_intCast ih
  have hnw_box : scaledW boxW boxH iw ih ≤ boxW := by
    unfold scaledW
    rw [ratFloor_eq_floor]
    have h3 : (iw : ℚ) * imageScale boxW boxH iw ih ≤ (boxW : ℚ) := by
      rw [le_div_iff₀ hiwQ] at hqw
      nlinarith
    calc ⌊(iw : ℚ) * imageScale boxW boxH iw ih⌋ ≤ ⌊(boxW : ℚ)⌋ :=
          Int.floor_le_floor h3
      _ = boxW := Int.floor_intCast boxW
  have hnh_box : scaledH boxW boxH iw ih ≤ boxH := by
    unfold scaledH
    rw [ratFloor_eq_floor]
    have h3 : (ih : ℚ) * imageScale boxW boxH iw ih ≤ (boxH : ℚ) := by
      rw [le_div_iff₀ hihQ] at hqh
      nlinarith
    calc ⌊(ih : ℚ) * imageScale boxW boxH iw ih⌋ ≤ ⌊(boxH : ℚ)⌋ :=
          Int.floor_le_floor h3
      _ = boxH := Int.floor_intCast boxH
  have ew : Int.fdiv (boxW - scaledW boxW boxH iw ih) 2 =
      (boxW - scaledW boxW boxH iw ih) / 2 :=
    Int.fdiv_eq_ediv _ (by norm_num)
  have eh : Int.fdiv (boxH - scaledH boxW boxH iw ih) 2 =
      (boxH - scaledH boxW boxH iw ih) / 2 :=
    Int.fdiv_eq_ediv _ (by norm_num)
  refine ⟨hq1, hnw_iw, hnh_ih, hnw_box, hnh_box, ?_, ?_, ?_, ?_, ?_, ?_⟩
  · unfold pasteX
    rw [ew]
    omega
  · unfold pasteX
    rw [ew]
    omega
  · unfold pasteX
    rw [ew]
    rw [abs_le]
    constructor <;> omega
  · unfold pasteY
    rw [eh]
    omega
  · unfold pasteY
    rw [eh]
    omega
  · unfold pasteY
    rw [eh]
    rw [abs_le]
    constructor <;> omega

theorem c9_image_scaling_witness :
    (0 : Int) < 2000 ∧ (0 : Int) < 1000 ∧
    scaledW 1040 600 2000 1000 ≤ 2000 ∧ scaledW 1040 600 2000 1000 ≤ 1040 :=
  ⟨by decide, by decide,
   (c9_image_scaling 1040 600 556 60 2000 1000 (by decide) (by decide)).2.1,
   (c9_image_scaling 1040 600 556 60 2000 1000 (by decide) (by decide)).2.2.2.1⟩

/-- C10: whenever the stripped, lower-cased brand is a `BRAND_COUNTRY`
key, the 36×24 flag is drawn regardless of which specification fields are
populated, at `y = spec_y_start + len(right_items) * line_height + 12`;
with both right-column fields absent it sits at `spec_y_start + 12`, the
top of the right column. -/
theorem c10_flag_always (brand cc : String) (s : Specs) (start rEnd : Int)
    (hcc : dictGet (lowerStr (pyStrip brand)) brandCountry = some cc) :
    flagStepOps brand s start rEnd =
      drawCountryFlag cc (rEnd - 36)
        (start + ((rightItems s).length : Int) * lineHeight + 12) 36 24 ∧
    flagStepOps brand s start rEnd ≠ [] ∧
    (s.acceleration_0_100 = none → s.top_speed = none →
      flagStepOps brand s start rEnd =
        drawCountryFlag cc (rEnd - 36) (start + 12) 36 24) := by
  have heq : flagStepOps brand s start rEnd =
      drawCountryFlag cc (rEnd - 36)
        (start + ((rightItems s).length : Int) * lineHeight + 12) 36 24 := by
    unfold flagStepOps
    rw [hcc]
  have hmem := dictGet_mem hcc
  have hgood : checkCountry cc = true := by
    have hall := allBrandsGood
    rw [List.all_eq_true] at hall
    exact hall _ hmem
  refine ⟨heq, ?_, ?_⟩
  · rw [heq]
    exact checkCountry_draw hgood _ _ _ _
  · intro ha ht
    rw [heq]
    have hlen : (rightItems s).length = 0 := by simp [rightItems, ha, ht]
    rw [hlen]
    have harg : start + ((0 : Nat) : Int) * lineHeight + 12 = start + 12 := by
      simp
    rw [harg]

theorem c10_flag_always_witness :
    dictGet (lowerStr (pyStrip "Porsche")) brandCountry = some "DE" ∧
    flagStepOps "Porsche" {} 1220 1130 ≠ [] :=
  ⟨by decide, (c10_flag_always "Porsche" "DE" {} 1220 1130 (by decide)).2.1⟩

end CarPoster
